import Mathlib

/-!
Verification of the query-plan interpreter and transaction manager core
of this repository.  The transaction manager and query interpreter are
exported by `packages/config/src` (`TransactionManager`,
`TransactionManagerError`, `QueryInterpreter`); their implementations are
modelled from the specification.  `getDMMF` / `getPrismaClientDMMF` and
`extractPreviewFeatures` are embedded directly from the source.
-/

namespace Prisma

/-- Modelled from the spec: the `NormalizedError` tagged union of §3 / §7,
`{ConstraintViolation, Timeout, ConnectionLost, Deadlock, NotFound,
Validation, Unknown}`, each carrying a backend-specific raw message. -/
inductive NormalizedError where
  | ConstraintViolation (msg : String)
  | Timeout (msg : String)
  | ConnectionLost (msg : String)
  | Deadlock (msg : String)
  | NotFound (msg : String)
  | Validation (msg : String)
  | Unknown (msg : String)
  deriving DecidableEq, Repr

/-- `e.isValidation` holds exactly when `e` is the `Validation` variant. -/
def NormalizedError.isValidation : NormalizedError → Bool
  | .Validation _ => true
  | _ => false

/-- `e.isTimeout` holds exactly when `e` is the `Timeout` variant. -/
def NormalizedError.isTimeout : NormalizedError → Bool
  | .Timeout _ => true
  | _ => false

namespace TransactionManager

/-- Modelled from the spec: transaction states of §4.2,
`Pending → Active → {Committing, RollingBack} → Closed`. -/
inductive TxState where
  | Pending
  | Active
  | Committing
  | RollingBack
  | Closed
  deriving DecidableEq, Repr

/-- Modelled from the spec: the single-step transition relation of the §4.2
state machine: `Pending → Active → {Committing, RollingBack} → Closed`,
plus `Active → Closed` via timeout-triggered forced rollback, plus
`Committing → RollingBack` (rollback is valid from `Committing`-failed). -/
inductive TxStep : TxState → TxState → Prop where
  | activate : TxStep .Pending .Active
  | beginCommit : TxStep .Active .Committing
  | commitFinish : TxStep .Committing .Closed
  | beginRollback : TxStep .Active .RollingBack
  | rollbackAfterFailedCommit : TxStep .Committing .RollingBack
  | rollbackFinish : TxStep .RollingBack .Closed
  | timeoutClose : TxStep .Active .Closed

/-- Modelled from the spec: a `TransactionHandle` (§3): id, state and an
optional deadline (creation timestamp + timeout duration). -/
structure TransactionHandle where
  id : Nat
  state : TxState
  deadline : Option Nat
  deriving DecidableEq, Repr

/-- Result of a call into the backend Connection Abstraction. -/
inductive BackendResult where
  | ok
  | err (e : NormalizedError)
  deriving DecidableEq, Repr

/-- Outcome of a transaction-manager operation: the updated handle, the
sequence of states the handle entered during the operation (in order),
the result surfaced to the caller, and how many times the operation
delegated to the backend Connection Abstraction. -/
structure OpResult where
  handle : TransactionHandle
  entered : List TxState
  result : Except NormalizedError Unit
  backendCalls : Nat
  deriving Repr

/-- Modelled from the spec: `commit(handle)` (§4.2) — valid only from
`Active`; transitions to `Committing`, delegates to the Connection
Abstraction, transitions to `Closed` on success or surfaces the backend
error while still transitioning to `Closed`; on an already-`Closed`
handle fails with `Validation` ("transaction already closed"). -/
def commit (h : TransactionHandle) (backend : BackendResult) : OpResult :=
  match h.state with
  | .Active =>
      { handle := { h with state := .Closed }
        entered := [.Committing, .Closed]
        result := match backend with
          | .ok => .ok ()
          | .err e => .error e
        backendCalls := 1 }
  | .Closed =>
      { handle := h, entered := [],
        result := .error (.Validation "transaction already closed"),
        backendCalls := 0 }
  | _ =>
      { handle := h, entered := [],
        result := .error (.Validation "transaction not active"),
        backendCalls := 0 }

/-- Modelled from the spec: `rollback(handle)` (§4.2) — valid from `Active`
or `Committing`-failed; transitions to `RollingBack` then `Closed`;
rollback failures are logged but the handle is unconditionally marked
`Closed`; on an already-`Closed` handle fails with `Validation`
("transaction already closed"). -/
def rollback (h : TransactionHandle) (backend : BackendResult) : OpResult :=
  match h.state with
  | .Active | .Committing =>
      { handle := { h with state := .Closed }
        entered := [.RollingBack, .Closed]
        result := .ok ()
        backendCalls := 1 }
  | .Closed =>
      { handle := h, entered := [],
        result := .error (.Validation "transaction already closed"),
        backendCalls := 0 }
  | _ =>
      { handle := h, entered := [],
        result := .error (.Validation "transaction not active"),
        backendCalls := 0 }

/-- One event of the instrumented operation trace: an operation either
starts executing against the handle or finishes. -/
inductive Phase where
  | start
  | finish
  deriving DecidableEq, Repr

/-- Modelled from the spec: `executeWithin(handle, operations)` (§4.2) —
rejects with `Validation` if `handle.state != Active`; otherwise
serializes the submitted operations against the handle: each operation
runs to completion before the next one starts, producing the event trace
`start o₁, finish o₁, start o₂, finish o₂, …`. -/
def serializeOps (ops : List Nat) : List (Nat × Phase) :=
  ops.flatMap (fun o => [(o, .start), (o, .finish)])

/-- Modelled from the spec: `executeWithin` entry point — `Validation`
unless the handle is `Active`, otherwise the serialized event trace. -/
def executeWithin (h : TransactionHandle) (ops : List Nat) :
    Except NormalizedError (List (Nat × Phase)) :=
  match h.state with
  | .Active => .ok (serializeOps ops)
  | _ => .error (.Validation "transaction not active")

/-- Number of operations in flight after a trace: operations started
minus operations finished. -/
def inFlight (trace : List (Nat × Phase)) : Nat :=
  trace.foldl (fun n e => match e.2 with
    | .start => n + 1
    | .finish => n - 1) 0

/-- Modelled from the spec: timeout reclamation (§4.2), performed lazily on
next access — an `Active` handle past its deadline is force-rolled-back
and the caller's operation fails with `Timeout`; otherwise the operation
is executed within the handle. -/
def accessAt (now : Nat) (h : TransactionHandle) (ops : List Nat) :
    TransactionHandle × Except NormalizedError (List (Nat × Phase)) :=
  match h.state, h.deadline with
  | .Active, some d =>
      if d < now then
        ({ h with state := .Closed }, .error (.Timeout "transaction timed out"))
      else
        (h, executeWithin h ops)
  | _, _ => (h, executeWithin h ops)

end TransactionManager

namespace QueryInterpreter

/-- Modelled from the spec: the node-kind enumeration of §3 — `Get`,
`Filter`, `Join`, `Map/Select`, `Aggregate`, `Execute/Mutate`,
transaction boundary markers. -/
inductive NodeKind where
  | get
  | filter
  | join
  | mapSelect
  | aggregate
  | mutate
  | txBoundary
  deriving DecidableEq, Repr

/-- Modelled from the spec: a parameter reference in node configuration,
resolved from `params` by positional or named reference (§4.1). -/
inductive ParamRef where
  | positional (i : Nat)
  | named (s : String)
  deriving DecidableEq, Repr

/-- Modelled from the spec: a `PlanNode` (§3): `id` (unique within plan),
`kind`, `inputs` (ordered list of child node ids), and the parameter
references appearing in its kind-specific configuration. -/
structure PlanNode where
  id : Nat
  kind : NodeKind
  inputs : List Nat
  paramRefs : List ParamRef
  deriving DecidableEq, Repr

/-- A scalar value flowing through the interpreter. -/
inductive Value where
  | vint (n : Int)
  | vstr (s : String)
  | vnull
  deriving DecidableEq, Repr

/-- Modelled from the spec: the supplied parameter values, addressable by
position or by name (§4.1 parameter substitution). -/
structure Params where
  positional : List Value
  named : List (String × Value)
  deriving Repr

/-- Resolve one parameter reference; `none` when the referenced parameter
is missing from the supplied `params`. -/
def resolveRef (params : Params) : ParamRef → Option Value
  | .positional i => params.positional.get? i
  | .named s => (params.named.find? (fun p => p.1 == s)).map (·.2)

/-- Modelled from the spec: parameter substitution for one node — all
placeholders in the node's configuration resolved from `params`, `none`
if any referenced parameter is missing (§4.1). -/
def resolveParams (params : Params) (n : PlanNode) : Option (List Value) :=
  n.paramRefs.mapM (resolveRef params)

/-- A node is ready once every one of its declared inputs has completed
(its producing node id is in `done`). -/
def ready (done : List Nat) (n : PlanNode) : Bool :=
  n.inputs.all (fun i => done.contains i)

/-- Pick the first pending node all of whose inputs are done, returning it
together with the remaining pending nodes. -/
def pickReady (done : List Nat) : List PlanNode → Option (PlanNode × List PlanNode)
  | [] => none
  | n :: rest =>
      if ready done n then some (n, rest)
      else match pickReady done rest with
        | some (m, rest2) => some (m, n :: rest2)
        | none => none

/-- Modelled from the spec: computing an evaluation order consistent with
declared inputs (§4.1) — repeatedly schedule a node whose inputs are all
bound; fails (`none`) when the plan is cyclic or an input reference does
not resolve to a defined node, since then some pending node never
becomes ready. -/
def topoAux (fuel : Nat) (done : List Nat) (pending : List PlanNode) :
    Option (List PlanNode) :=
  match pending with
  | [] => some []
  | _ :: _ =>
    match fuel with
    | 0 => none
    | fuel' + 1 =>
      match pickReady done pending with
      | none => none
      | some (n, rest) =>
          (topoAux fuel' (n.id :: done) rest).map (fun order => n :: order)

/-- Modelled from the spec: plan validation and ordering — `some order`
with `order` a topological evaluation order of the plan's nodes, `none`
when the plan is cyclic or has an unresolved input reference (§4.1). -/
def topoSort (nodes : List PlanNode) : Option (List PlanNode) :=
  topoAux nodes.length [] nodes

/-- The property the spec requires of an evaluation order (§8): the order
is a permutation of the plan's nodes and every declared input of a node
is produced by a node strictly earlier in the order. -/
def IsTopoOrder (nodes order : List PlanNode) : Prop :=
  nodes.Perm order ∧
    ∀ k, ∀ hk : k < order.length, ∀ inp ∈ (order.get ⟨k, hk⟩).inputs,
      ∃ j, ∃ hj : j < order.length, j < k ∧ (order.get ⟨j, hj⟩).id = inp

/-- State threaded through node evaluation: the ids whose queries were
issued (in order) and the mutation effects currently persisted in the
backend. -/
structure RunState where
  evaluated : List Nat
  effects : List Nat
  deriving DecidableEq, Repr

/-- Modelled from the spec: evaluate the scheduled nodes in order (§4.1) —
for each node, first resolve its parameters (fail with `Validation`
before issuing the query if one is missing), then issue the query; a
backend failure (given by `behavior`) aborts all remaining evaluation;
a successful `Execute/Mutate` node persists an effect. -/
def runNodes (behavior : Nat → Except NormalizedError Unit) (params : Params) :
    List PlanNode → RunState → RunState × Except NormalizedError Unit
  | [], st => (st, .ok ())
  | n :: rest, st =>
    match resolveParams params n with
    | none => (st, .error (.Validation "missing parameter"))
    | some _ =>
      match behavior n.id with
      | .error e => ({ st with evaluated := st.evaluated ++ [n.id] }, .error e)
      | .ok _ =>
          runNodes behavior params rest
            { evaluated := st.evaluated ++ [n.id]
              effects := if n.kind = .mutate then st.effects ++ [n.id] else st.effects }

/-- Outcome of a plan execution: the caller-visible result, the node ids
whose queries were issued in order, the mutation effects that remain
persisted after the invocation, and whether an automatic rollback ran. -/
structure ExecOutcome where
  result : Except NormalizedError Unit
  evaluated : List Nat
  effects : List Nat
  rolledBack : Bool
  deriving Repr

/-- Modelled from the spec: `execute(plan, params, context)` (§4.1) —
validates the plan (fails with `Validation` when cyclic or an input
reference is unresolved), evaluates nodes in topological order, and on
any node failure propagates the `NormalizedError`; when the transaction
was implicitly opened for this invocation (`implicitTx`), a failure
triggers an automatic rollback undoing all persisted effects before
returning. -/
def execute (plan : List PlanNode) (params : Params) (implicitTx : Bool)
    (behavior : Nat → Except NormalizedError Unit) : ExecOutcome :=
  match topoSort plan with
  | none =>
      { result := .error (.Validation "invalid plan"), evaluated := [],
        effects := [], rolledBack := false }
  | some order =>
    match runNodes behavior params order ⟨[], []⟩ with
    | (st, .ok _) =>
        { result := .ok (), evaluated := st.evaluated, effects := st.effects,
          rolledBack := false }
    | (st, .error e) =>
        if implicitTx then
          { result := .error e, evaluated := st.evaluated, effects := [],
            rolledBack := true }
        else
          { result := .error e, evaluated := st.evaluated, effects := st.effects,
            rolledBack := false }

/-- A row: named fields with values. -/
abbrev Row := List (String × Value)

/-- Field lookup in a row. -/
def Row.field (r : Row) (k : String) : Option Value :=
  (List.find? (fun p => p.1 == k) r).map (·.2)

/-- Two rows match on the join keys when every key field has the same
(defined) value in both. -/
def matchesOn (keys : List String) (l r : Row) : Bool :=
  keys.all (fun k =>
    match l.field k, r.field k with
    | some a, some b => a == b
    | _, _ => false)

/-- The right-side fields of a matched right row: its fields other than
the join keys. -/
def rightResidual (keys : List String) (r : Row) : Row :=
  r.filter (fun p => !keys.contains p.1)

/-- Modelled from the spec: the `Join` node in left-outer mode (§4.1) —
combines two input bindings by matching key fields; every left row is
paired with each matching right row's non-key fields, and an unmatched
left row appears once with null bound for all right-side fields
(`rightCols`, the right-side field names declared by the node). -/
def leftOuterJoin (keys rightCols : List String) (left right : List Row) :
    List Row :=
  left.flatMap (fun l =>
    match right.filter (fun r => matchesOn keys l r) with
    | [] => [l ++ rightCols.map (fun c => (c, Value.vnull))]
    | ms => ms.map (fun r => l ++ rightResidual keys r))

end QueryInterpreter

namespace Generators

/-- A generator block from the Prisma schema, as consumed by
`extractPreviewFeatures`: its `provider` (an env-parsable value of
abstract type `EnvValue`) and its optional `previewFeatures` list
(`none` when the field is absent). -/
structure GeneratorConfig (EnvValue : Type) where
  provider : EnvValue
  previewFeatures : Option (List String)

/-- Embedded from `extractPreviewFeatures` in the source:
`generators.find((g) => parseEnvValue(g.provider) === 'prisma-client-js')
  ?.previewFeatures || []`.
`parseEnvValue` is an external helper and is passed in abstractly. -/
def extractPreviewFeatures {EnvValue : Type}
    (parseEnvValue : EnvValue → String)
    (generators : List (GeneratorConfig EnvValue)) : List String :=
  match generators.find? (fun g => parseEnvValue g.provider == "prisma-client-js") with
  | some g => g.previewFeatures.getD []
  | none => []

end Generators

namespace Dmmf

/-- Embedded from `getPrismaClientDMMF` in the source:
`return externalToInternalDmmf(dmmf)`. The external helper
`externalToInternalDmmf` and the DMMF document types are abstract. -/
def getPrismaClientDMMF {RawDoc ClientDoc : Type}
    (externalToInternalDmmf : RawDoc → ClientDoc) (dmmf : RawDoc) : ClientDoc :=
  externalToInternalDmmf dmmf

/-- Embedded from `getDMMF` in the source:
`const dmmf = await getRawDMMF(options); return getPrismaClientDMMF(dmmf)`.
The awaited promise is modelled as `Except Err`: a rejected `getRawDMMF`
propagates its rejection. -/
def getDMMF {Options RawDoc ClientDoc Err : Type}
    (getRawDMMF : Options → Except Err RawDoc)
    (externalToInternalDmmf : RawDoc → ClientDoc)
    (options : Options) : Except Err ClientDoc := do
  let dmmf ← getRawDMMF options
  pure (getPrismaClientDMMF externalToInternalDmmf dmmf)

/-- The composition `getPrismaClientDMMF ∘ getRawDMMF` stated by the claim,
written independently of `getDMMF`. -/
def getDMMFComposed {Options RawDoc ClientDoc Err : Type}
    (getRawDMMF : Options → Except Err RawDoc)
    (externalToInternalDmmf : RawDoc → ClientDoc)
    (options : Options) : Except Err ClientDoc :=
  (getRawDMMF options).map (getPrismaClientDMMF externalToInternalDmmf)

end Dmmf

end Prisma

namespace Prisma

namespace TransactionManager

/-- Helper: the serialized trace never has more than one operation in
flight at any point (every prefix of the trace has `inFlight ≤ 1`). -/
theorem serializeOps_inFlight_le_one (ops : List Nat) :
    ∀ k, inFlight ((serializeOps ops).take k) ≤ 1 := by
  induction ops with
  | nil => intro k; simp [serializeOps, inFlight]
  | cons o rest ih =>
    intro k
    have hexp : serializeOps (o :: rest) =
        (o, Phase.start) :: (o, Phase.finish) :: serializeOps rest := by
      simp [serializeOps]
    rw [hexp]
    match k with
    | 0 => simp [inFlight]
    | 1 => simp [inFlight]
    | k' + 2 =>
      have : inFlight ((o, Phase.start) :: (o, Phase.finish) ::
          (serializeOps rest).take k') = inFlight ((serializeOps rest).take k') := rfl
      simpa [List.take, this] using ih k'

/-- C1: `executeWithin` rejects with `Validation` whenever the handle is
not `Active`, and when it accepts, the operations are serialized against
the handle: at every point of the produced event trace at most one
operation is in flight, so no two operations ever execute
concurrently. -/
theorem executeWithin_serializes (h : TransactionHandle) (ops : List Nat) :
    (h.state ≠ .Active →
      executeWithin h ops = .error (.Validation "transaction not active")) ∧
    (∀ trace, executeWithin h ops = .ok trace →
      ∀ k, inFlight (trace.take k) ≤ 1) := by
  constructor
  · intro hne
    obtain ⟨i, s, d⟩ := h
    cases s <;> simp_all [executeWithin]
  · intro trace htr k
    obtain ⟨i, s, d⟩ := h
    cases s <;> simp [executeWithin] at htr
    subst htr
    exact serializeOps_inFlight_le_one ops k

/-- Witness for C1 at a closed handle and at an active handle with two
operations. -/
theorem executeWithin_serializes_witness :
    executeWithin ⟨0, .Closed, none⟩ [1, 2]
        = .error (.Validation "transaction not active") ∧
    inFlight ((serializeOps [1, 2]).take 3) ≤ 1 := by
  refine ⟨(executeWithin_serializes ⟨0, .Closed, none⟩ [1, 2]).1 (by decide), ?_⟩
  exact (executeWithin_serializes ⟨0, .Active, none⟩ [1, 2]).2
    (serializeOps [1, 2]) rfl 3

/-- C2: `commit` and `rollback` on an already-`Closed` handle fail with
`Validation` ("transaction already closed") without touching the handle
or the backend; after a successful `commit`, a second `commit` on the
same handle fails with `Validation` and the backend commit is delegated
to exactly once overall (never committed twice). -/
theorem closed_handle_idempotence (h h2 : TransactionHandle)
    (b b' : BackendResult) (hc : h.state = .Closed) (ha : h2.state = .Active) :
    (commit h b).result = .error (.Validation "transaction already closed") ∧
    (commit h b).handle = h ∧ (commit h b).backendCalls = 0 ∧
    (rollback h b).result = .error (.Validation "transaction already closed") ∧
    (rollback h b).handle = h ∧ (rollback h b).backendCalls = 0 ∧
    (commit h2 .ok).result = .ok () ∧
    (commit (commit h2 .ok).handle b').result
        = .error (.Validation "transaction already closed") ∧
    (commit h2 .ok).backendCalls + (commit (commit h2 .ok).handle b').backendCalls
        = 1 := by
  obtain ⟨i, s, d⟩ := h
  obtain ⟨i2, s2, d2⟩ := h2
  simp only [TransactionHandle.state] at hc ha
  subst hc ha
  refine ⟨rfl, rfl, rfl, rfl, rfl, rfl, rfl, rfl, rfl⟩

/-- Witness for C2: a closed handle and an active handle. -/
theorem closed_handle_idempotence_witness :
    (commit ⟨0, .Closed, none⟩ .ok).result
        = .error (.Validation "transaction already closed") ∧
    (commit (commit ⟨1, .Active, none⟩ .ok).handle .ok).result
        = .error (.Validation "transaction already closed") :=
  ⟨(closed_handle_idempotence ⟨0, .Closed, none⟩ ⟨1, .Active, none⟩ .ok .ok
      rfl rfl).1,
   (closed_handle_idempotence ⟨0, .Closed, none⟩ ⟨1, .Active, none⟩ .ok .ok
      rfl rfl).2.2.2.2.2.2.2.1⟩

/-- C4: every state change performed by `commit`, `rollback` or
timeout-forced closing follows the allowed transitions
`Pending → Active → {Committing, RollingBack} → Closed`
(plus `Active → Closed` on timeout); `commit` is valid only from
`Active` and closes the handle whether the backend succeeds or errors;
`rollback` from `Active` or `Committing` unconditionally closes the
handle even when the backend rollback fails. -/
theorem tx_state_machine (h : TransactionHandle) (b : BackendResult)
    (e : NormalizedError) (now : Nat) (ops : List Nat) :
    List.Chain TxStep h.state (commit h b).entered ∧
    List.Chain TxStep h.state (rollback h b).entered ∧
    ((accessAt now h ops).1.state = h.state ∨
      TxStep h.state (accessAt now h ops).1.state) ∧
    (h.state = .Active → (commit h b).handle.state = .Closed ∧
      (commit h b).entered = [.Committing, .Closed]) ∧
    (h.state ≠ .Active → (commit h b).handle = h ∧
      ∃ msg, (commit h b).result = .error (.Validation msg)) ∧
    ((h.state = .Active ∨ h.state = .Committing) →
      (rollback h (.err e)).handle.state = .Closed ∧
      (rollback h (.err e)).result = .ok ()) := by
  obtain ⟨i, s, d⟩ := h
  refine ⟨?_, ?_, ?_, ?_, ?_, ?_⟩
  · cases s <;> cases b <;> first
      | exact .nil
      | exact .cons .beginCommit (.cons .commitFinish .nil)
  · cases s <;> cases b <;> first
      | exact .nil
      | exact .cons .beginRollback (.cons .rollbackFinish .nil)
      | exact .cons .rollbackAfterFailedCommit (.cons .rollbackFinish .nil)
  · cases s
    case Active =>
      cases d with
      | none => exact Or.inl rfl
      | some dl =>
        by_cases hlt : dl < now
        · refine Or.inr ?_
          have hcl : (accessAt now ⟨i, .Active, some dl⟩ ops).1.state = .Closed := by
            simp [accessAt, hlt]
          rw [hcl]
          exact .timeoutClose
        · refine Or.inl ?_
          simp [accessAt, hlt]
    all_goals exact Or.inl rfl
  · intro hs
    simp only [TransactionHandle.state] at hs
    subst hs
    cases b <;> exact ⟨rfl, rfl⟩
  · intro hs
    cases s <;> simp_all [commit]
  · intro hs
    rcases hs with hs | hs <;> simp only [TransactionHandle.state] at hs <;>
      subst hs <;> exact ⟨rfl, rfl⟩

/-- Witness for C4: committing an active handle closes it through
`Committing`. -/
theorem tx_state_machine_witness :
    (commit ⟨0, .Active, none⟩ .ok).handle.state = .Closed ∧
    (commit ⟨0, .Active, none⟩ .ok).entered = [.Committing, .Closed] :=
  (tx_state_machine ⟨0, .Active, none⟩ .ok (.Unknown "") 0 []).2.2.2.1 rfl

/-- C5: an `Active` handle whose deadline has passed is reclaimed on next
access: the operation fails with `Timeout` and the handle is forced to
`Closed`. -/
theorem timeout_reclaimed (now d : Nat) (h : TransactionHandle)
    (ops : List Nat) (ha : h.state = .Active) (hd : h.deadline = some d)
    (hpast : d < now) :
    (accessAt now h ops).2 = .error (.Timeout "transaction timed out") ∧
    (accessAt now h ops).1.state = .Closed := by
  obtain ⟨i, s, dl⟩ := h
  simp only [TransactionHandle.state, TransactionHandle.deadline] at ha hd
  subst ha hd
  simp [accessAt, hpast]

/-- Witness for C5: a handle with deadline 100 accessed at time 500. -/
theorem timeout_reclaimed_witness :
    (accessAt 500 ⟨0, .Active, some 100⟩ [7]).2
        = .error (.Timeout "transaction timed out") ∧
    (accessAt 500 ⟨0, .Active, some 100⟩ [7]).1.state = .Closed :=
  timeout_reclaimed 500 100 ⟨0, .Active, some 100⟩ [7] rfl rfl (by decide)

end TransactionManager

namespace QueryInterpreter

/-- Helper: a node returned by `pickReady` has all its inputs done. -/
theorem pickReady_ready (done : List Nat) :
    ∀ (pending : List PlanNode) (n : PlanNode) (rest : List PlanNode),
      pickReady done pending = some (n, rest) → ready done n = true := by
  intro pending
  induction pending with
  | nil => intro n rest h; simp [pickReady] at h
  | cons m ms ih =>
    intro n rest h
    rw [pickReady] at h
    split at h
    · simp only [Option.some.injEq, Prod.mk.injEq] at h
      obtain ⟨rfl, rfl⟩ := h
      assumption
    · cases hp : pickReady done ms with
      | none => rw [hp] at h; cases h
      | some pr =>
        obtain ⟨n', rest'⟩ := pr
        rw [hp] at h
        simp only [Option.some.injEq, Prod.mk.injEq] at h
        obtain ⟨rfl, rfl⟩ := h
        exact ih n' rest' hp

/-- Helper: `pickReady` only reorders the pending nodes. -/
theorem pickReady_perm (done : List Nat) :
    ∀ (pending : List PlanNode) (n : PlanNode) (rest : List PlanNode),
      pickReady done pending = some (n, rest) → pending.Perm (n :: rest) := by
  intro pending
  induction pending with
  | nil => intro n rest h; simp [pickReady] at h
  | cons m ms ih =>
    intro n rest h
    rw [pickReady] at h
    split at h
    · simp only [Option.some.injEq, Prod.mk.injEq] at h
      obtain ⟨rfl, rfl⟩ := h
      exact List.Perm.refl _
    · cases hp : pickReady done ms with
      | none => rw [hp] at h; cases h
      | some pr =>
        obtain ⟨n', rest'⟩ := pr
        rw [hp] at h
        simp only [Option.some.injEq, Prod.mk.injEq] at h
        obtain ⟨rfl, rfl⟩ := h
        exact ((ih n' rest' hp).cons m).trans (List.Perm.swap n' m rest')

/-- Helper: a successful `topoAux` run returns a permutation of the
pending nodes in which every input of a node is either already done or
produced by an earlier node of the returned order. -/
theorem topoAux_sound :
    ∀ (fuel : Nat) (done : List Nat) (pending order : List PlanNode),
      topoAux fuel done pending = some order →
      pending.Perm order ∧
        ∀ k, ∀ hk : k < order.length, ∀ inp ∈ (order.get ⟨k, hk⟩).inputs,
          inp ∈ done ∨
            ∃ j, ∃ hj : j < order.length, j < k ∧ (order.get ⟨j, hj⟩).id = inp := by
  intro fuel
  induction fuel with
  | zero =>
    intro done pending order h
    cases pending with
    | nil =>
      rw [topoAux] at h
      simp only [Option.some.injEq] at h
      subst h
      exact ⟨List.Perm.refl _, by intro k hk; simp at hk⟩
    | cons p ps => rw [topoAux] at h; cases h
  | succ fuel ih =>
    intro done pending order h
    cases pending with
    | nil =>
      rw [topoAux] at h
      simp only [Option.some.injEq] at h
      subst h
      exact ⟨List.Perm.refl _, by intro k hk; simp at hk⟩
    | cons p ps =>
      cases hp : pickReady done (p :: ps) with
      | none => rw [topoAux, hp] at h; cases h
      | some pr =>
        obtain ⟨n, rest⟩ := pr
        simp only [topoAux, hp] at h
        cases ht : topoAux fuel (n.id :: done) rest with
        | none => simp [ht] at h
        | some tail =>
          rw [ht] at h
          simp only [Option.map_some', Option.some.injEq] at h
          subst h
          obtain ⟨ihperm, ihprop⟩ := ih (n.id :: done) rest tail ht
          refine ⟨(pickReady_perm done _ n rest hp).trans (ihperm.cons n), ?_⟩
          intro k hk inp hinp
          match k with
          | 0 =>
            left
            have hr := pickReady_ready done _ n rest hp
            simp only [ready, List.all_eq_true] at hr
            have : inp ∈ n.inputs := hinp
            have := hr inp this
            simpa [List.contains_iff_exists_mem_beq, eq_comm] using this
          | k' + 1 =>
            have hk' : k' < tail.length := by
              simpa [Nat.succ_lt_succ_iff] using hk
            have hinp' : inp ∈ (tail.get ⟨k', hk'⟩).inputs := hinp
            rcases ihprop k' hk' inp hinp' with hmem | ⟨j, hj, hlt, hid⟩
            · rcases List.mem_cons.mp hmem with heq | hmem'
              · right
                refine ⟨0, Nat.succ_pos _, Nat.succ_pos _, ?_⟩
                exact heq.symm
              · left; exact hmem'
            · right
              exact ⟨j + 1, Nat.succ_lt_succ hj, Nat.succ_lt_succ hlt, hid⟩

/-- Helper: the evaluated trace produced by `runNodes` extends the incoming
trace by a prefix of the scheduled node ids. -/
theorem runNodes_evaluated_take
    (behavior : Nat → Except NormalizedError Unit) (params : Params) :
    ∀ (l : List PlanNode) (st : RunState),
      ∃ t, (runNodes behavior params l st).1.evaluated = st.evaluated ++ t ∧
        ∃ k, t = (l.map (·.id)).take k := by
  intro l
  induction l with
  | nil => intro st; exact ⟨[], by simp [runNodes], 0, rfl⟩
  | cons n rest ih =>
    intro st
    cases hres : resolveParams params n with
    | none =>
      refine ⟨[], ?_, 0, rfl⟩
      simp [runNodes, hres]
    | some vs =>
      cases hb : behavior n.id with
      | error e =>
        refine ⟨[n.id], ?_, 1, ?_⟩
        · simp [runNodes, hres, hb]
        · simp
      | ok u =>
        obtain ⟨t, hev, k, hk⟩ := ih
          { evaluated := st.evaluated ++ [n.id]
            effects := if n.kind = .mutate then st.effects ++ [n.id] else st.effects }
        refine ⟨n.id :: t, ?_, k + 1, ?_⟩
        · cases u
          simp only [runNodes, hres, hb]
          rw [hev]
          simp
        · simp [hk]

/-- C6: for every acyclic plan accepted by the interpreter's scheduler,
the computed evaluation order is topological — a node appears only after
every one of its declared inputs' producing nodes — and `execute` issues
queries exactly along a prefix of that order, so a node is never
evaluated before all its inputs are bound. -/
theorem interpreter_topological (plan order : List PlanNode) (params : Params)
    (implicitTx : Bool) (behavior : Nat → Except NormalizedError Unit)
    (h : topoSort plan = some order) :
    IsTopoOrder plan order ∧
    ∃ k, (execute plan params implicitTx behavior).evaluated
        = (order.map (·.id)).take k := by
  obtain ⟨hperm, hprop⟩ := topoAux_sound plan.length [] plan order h
  constructor
  · refine ⟨hperm, ?_⟩
    intro k hk inp hinp
    rcases hprop k hk inp hinp with hmem | hj
    · cases hmem
    · exact hj
  · obtain ⟨t, hev, k, hk⟩ :=
      runNodes_evaluated_take behavior params order ⟨[], []⟩
    refine ⟨k, ?_⟩
    have hev' : (runNodes behavior params order ⟨[], []⟩).1.evaluated
        = (order.map (·.id)).take k := by
      rw [hev, hk]; rfl
    cases hrun : runNodes behavior params order ⟨[], []⟩ with
    | mk st res =>
      rw [hrun] at hev'
      cases res with
      | ok u => cases u; simpa [execute, h, hrun] using hev'
      | error e =>
        cases implicitTx <;> simpa [execute, h, hrun] using hev'

/-- Witness for C6: a two-node plan where node 2 reads node 1's binding. -/
theorem interpreter_topological_witness :
    IsTopoOrder [⟨1, .get, [], []⟩, ⟨2, .get, [1], []⟩]
        [⟨1, .get, [], []⟩, ⟨2, .get, [1], []⟩] ∧
    ∃ k, (execute [⟨1, .get, [], []⟩, ⟨2, .get, [1], []⟩] ⟨[], []⟩ false
        (fun _ => .ok ())).evaluated
      = (([⟨1, .get, [], []⟩, ⟨2, .get, [1], []⟩] : List PlanNode).map
          (·.id)).take k :=
  interpreter_topological [⟨1, .get, [], []⟩, ⟨2, .get, [1], []⟩]
    [⟨1, .get, [], []⟩, ⟨2, .get, [1], []⟩] ⟨[], []⟩ false (fun _ => .ok ())
    (by decide)

/-- Helper: if every backend call succeeds and some scheduled node has a
missing parameter, `runNodes` fails with the `Validation` error. -/
theorem runNodes_missing_param
    (behavior : Nat → Except NormalizedError Unit) (params : Params)
    (hok : ∀ i, behavior i = .ok ()) :
    ∀ (l : List PlanNode) (st : RunState),
      (∃ n ∈ l, resolveParams params n = none) →
      (runNodes behavior params l st).2 = .error (.Validation "missing parameter") := by
  intro l
  induction l with
  | nil => intro st h; simp at h
  | cons n rest ih =>
    intro st h
    cases hres : resolveParams params n with
    | none => simp [runNodes, hres]
    | some vs =>
      have hb := hok n.id
      simp only [runNodes, hres, hb]
      apply ih
      rcases h with ⟨m, hm, hmiss⟩
      rcases List.mem_cons.mp hm with rfl | hm'
      · rw [hres] at hmiss; cases hmiss
      · exact ⟨m, hm', hmiss⟩

/-- Helper: `runNodes` issues queries only for nodes whose parameters
resolved. -/
theorem runNodes_evaluated_resolved
    (behavior : Nat → Except NormalizedError Unit) (params : Params) :
    ∀ (l : List PlanNode) (st : RunState),
      ∀ i ∈ (runNodes behavior params l st).1.evaluated,
        i ∈ st.evaluated ∨ ∃ n ∈ l, n.id = i ∧ (resolveParams params n).isSome := by
  intro l
  induction l with
  | nil => intro st i hi; exact Or.inl hi
  | cons n rest ih =>
    intro st i hi
    cases hres : resolveParams params n with
    | none =>
      rw [runNodes, hres] at hi
      exact Or.inl hi
    | some vs =>
      cases hb : behavior n.id with
      | error e =>
        rw [runNodes, hres, hb] at hi
        simp only [List.mem_append, List.mem_singleton] at hi
        rcases hi with hi | rfl
        · exact Or.inl hi
        · exact Or.inr ⟨n, List.mem_cons_self n rest, rfl, by simp [hres]⟩
      | ok u =>
        cases u
        rw [runNodes, hres, hb] at hi
        rcases ih _ i hi with hmem | ⟨m, hm, hid, hsome⟩
        · simp only [List.mem_append, List.mem_singleton] at hmem
          rcases hmem with hmem | rfl
          · exact Or.inl hmem
          · exact Or.inr ⟨n, List.mem_cons_self n rest, rfl, by simp [hres]⟩
        · exact Or.inr ⟨m, List.mem_cons_of_mem n hm, hid, hsome⟩

/-- C7: `execute` fails with `Validation` when the plan admits no
topological order (it is cyclic or an input reference does not resolve),
and — when the backend itself never fails — whenever some node's
configuration references a parameter missing from the supplied params;
moreover a query is only ever issued for a node whose parameters all
resolved, so the affected query is never issued. -/
theorem execute_validation_errors (plan : List PlanNode) (params : Params)
    (implicitTx : Bool) (behavior : Nat → Except NormalizedError Unit) :
    ((∀ order, ¬ IsTopoOrder plan order) →
      (execute plan params implicitTx behavior).result
        = .error (.Validation "invalid plan")) ∧
    ((∀ i, behavior i = .ok ()) →
      (∃ n ∈ plan, resolveParams params n = none) →
      ∃ msg, (execute plan params implicitTx behavior).result
        = .error (.Validation msg)) ∧
    (∀ i ∈ (execute plan params implicitTx behavior).evaluated,
      ∃ n ∈ plan, n.id = i ∧ (resolveParams params n).isSome) := by
  refine ⟨?_, ?_, ?_⟩
  · intro hno
    cases htopo : topoSort plan with
    | none => simp [execute, htopo]
    | some order =>
      exfalso
      obtain ⟨hperm, hprop⟩ := topoAux_sound plan.length [] plan order htopo
      refine hno order ⟨hperm, ?_⟩
      intro k hk inp hinp
      rcases hprop k hk inp hinp with hmem | hj
      · cases hmem
      · exact hj
  · intro hok hmiss
    cases htopo : topoSort plan with
    | none => exact ⟨"invalid plan", by simp [execute, htopo]⟩
    | some order =>
      refine ⟨"missing parameter", ?_⟩
      obtain ⟨hperm, -⟩ := topoAux_sound plan.length [] plan order htopo
      have hmiss' : ∃ n ∈ order, resolveParams params n = none := by
        rcases hmiss with ⟨n, hn, hnone⟩
        exact ⟨n, hperm.mem_iff.mp hn, hnone⟩
      have hrun := runNodes_missing_param behavior params hok order ⟨[], []⟩ hmiss'
      cases hres : runNodes behavior params order ⟨[], []⟩ with
      | mk st res =>
        rw [hres] at hrun
        simp only at hrun
        subst hrun
        cases implicitTx <;> simp [execute, htopo, hres]
  · intro i hi
    cases htopo : topoSort plan with
    | none => simp [execute, htopo] at hi
    | some order =>
      obtain ⟨hperm, -⟩ := topoAux_sound plan.length [] plan order htopo
      have hi' : i ∈ (runNodes behavior params order ⟨[], []⟩).1.evaluated := by
        cases hres : runNodes behavior params order ⟨[], []⟩ with
        | mk st res =>
          cases res with
          | ok u => cases u; simpa [execute, htopo, hres] using hi
          | error e => cases implicitTx <;> simpa [execute, htopo, hres] using hi
      rcases runNodes_evaluated_resolved behavior params order ⟨[], []⟩ i hi' with
        hmem | ⟨n, hn, hid, hsome⟩
      · cases hmem
      · exact ⟨n, hperm.mem_iff.mpr hn, hid, hsome⟩

/-- Witness for C7: a single-node plan referencing positional parameter 0
while no parameters are supplied. -/
theorem execute_validation_errors_witness :
    ∃ msg, (execute [⟨1, .get, [], [.positional 0]⟩] ⟨[], []⟩ false
        (fun _ => .ok ())).result = .error (.Validation msg) :=
  (execute_validation_errors [⟨1, .get, [], [.positional 0]⟩] ⟨[], []⟩ false
      (fun _ => .ok ())).2.1 (fun _ => rfl)
    ⟨⟨1, .get, [], [.positional 0]⟩, List.mem_singleton.mpr rfl, rfl⟩

/-- Helper: when the nodes before `bad` all succeed and `bad`'s backend
call fails with `e`, `runNodes` stops at `bad`: it returns error `e` and
the evaluated trace extends the incoming one by exactly the preceding
ids plus `bad.id`; the nodes after `bad` are never evaluated. -/
theorem runNodes_stops_at_failure
    (behavior : Nat → Except NormalizedError Unit) (params : Params)
    (e : NormalizedError) (bad : PlanNode)
    (hbadp : (resolveParams params bad).isSome)
    (hbad : behavior bad.id = .error e) :
    ∀ (pre post : List PlanNode) (st : RunState),
      (∀ n ∈ pre, (resolveParams params n).isSome ∧ behavior n.id = .ok ()) →
      ∃ ef, runNodes behavior params (pre ++ bad :: post) st =
        (⟨st.evaluated ++ (pre.map (·.id) ++ [bad.id]), ef⟩, .error e) := by
  intro pre
  induction pre with
  | nil =>
    intro post st _
    obtain ⟨vs, hvs⟩ := Option.isSome_iff_exists.mp hbadp
    refine ⟨st.effects, ?_⟩
    simp [runNodes, hvs, hbad]
  | cons n pre' ih =>
    intro post st hpre
    obtain ⟨hns, hnb⟩ := hpre n (List.mem_cons_self n pre')
    obtain ⟨vs, hvs⟩ := Option.isSome_iff_exists.mp hns
    obtain ⟨ef, hef⟩ := ih post
      { evaluated := st.evaluated ++ [n.id]
        effects := if n.kind = .mutate then st.effects ++ [n.id] else st.effects }
      (fun m hm => hpre m (List.mem_cons_of_mem n hm))
    refine ⟨ef, ?_⟩
    simp only [List.cons_append, runNodes, hvs, hnb]
    rw [List.append_eq, hef]
    simp

/-- C3: when the plan's evaluation order is `pre ++ bad :: post`, all of
`pre` succeeds and `bad`'s query fails with error `e`, `execute`
propagates exactly the `NormalizedError` `e`, evaluates no node after
`bad` (the issued queries are exactly `pre`'s ids then `bad.id`), and —
when the transaction was implicitly opened for this invocation — an
automatic rollback runs before returning and no effect of the earlier
mutation nodes persists. -/
theorem failure_aborts_and_rolls_back (plan : List PlanNode) (params : Params)
    (behavior : Nat → Except NormalizedError Unit) (implicitTx : Bool)
    (order pre post : List PlanNode) (bad : PlanNode) (e : NormalizedError)
    (htopo : topoSort plan = some order) (hsplit : order = pre ++ bad :: post)
    (hpre : ∀ n ∈ pre, (resolveParams params n).isSome ∧ behavior n.id = .ok ())
    (hbadp : (resolveParams params bad).isSome)
    (hbad : behavior bad.id = .error e) :
    (execute plan params implicitTx behavior).result = .error e ∧
    (execute plan params implicitTx behavior).evaluated
        = pre.map (·.id) ++ [bad.id] ∧
    (implicitTx = true →
      (execute plan params implicitTx behavior).effects = [] ∧
      (execute plan params implicitTx behavior).rolledBack = true) := by
  subst hsplit
  obtain ⟨ef, hef⟩ := runNodes_stops_at_failure behavior params e bad hbadp hbad
    pre post ⟨[], []⟩ hpre
  have hev : (⟨[], []⟩ : RunState).evaluated ++ (pre.map (·.id) ++ [bad.id])
      = pre.map (·.id) ++ [bad.id] := by simp
  rw [hev] at hef
  cases implicitTx <;> simp [execute, htopo, hef]

/-- Witness for C3: a two-mutation plan with an implicit transaction where
the second mutation fails with a deadlock. -/
theorem failure_aborts_and_rolls_back_witness :
    (execute [⟨1, .mutate, [], []⟩, ⟨2, .mutate, [1], []⟩] ⟨[], []⟩ true
        (fun i => if i == 2 then .error (.Deadlock "dl") else .ok ())).result
      = .error (.Deadlock "dl") ∧
    (execute [⟨1, .mutate, [], []⟩, ⟨2, .mutate, [1], []⟩] ⟨[], []⟩ true
        (fun i => if i == 2 then .error (.Deadlock "dl") else .ok ())).evaluated
      = ([⟨1, .mutate, [], []⟩] : List PlanNode).map (·.id) ++ [2] ∧
    (true = true →
      (execute [⟨1, .mutate, [], []⟩, ⟨2, .mutate, [1], []⟩] ⟨[], []⟩ true
          (fun i => if i == 2 then .error (.Deadlock "dl") else .ok ())).effects
        = [] ∧
      (execute [⟨1, .mutate, [], []⟩, ⟨2, .mutate, [1], []⟩] ⟨[], []⟩ true
          (fun i => if i == 2 then .error (.Deadlock "dl") else .ok ())).rolledBack
        = true) :=
  failure_aborts_and_rolls_back
    [⟨1, .mutate, [], []⟩, ⟨2, .mutate, [1], []⟩] ⟨[], []⟩
    (fun i => if i == 2 then .error (.Deadlock "dl") else .ok ()) true
    [⟨1, .mutate, [], []⟩, ⟨2, .mutate, [1], []⟩]
    [⟨1, .mutate, [], []⟩] [] ⟨2, .mutate, [1], []⟩ (.Deadlock "dl")
    (by decide) rfl
    (by intro n hn
        simp only [List.mem_singleton] at hn
        subst hn
        exact ⟨rfl, rfl⟩)
    rfl rfl

/-- C8: in a left-outer join, every left row with no matching right row
appears in the result with null bound for each declared right-side
field; and on the spec's concrete example — left `[{id:1},{id:2}]`,
right `[{id:1,v:'a'}]`, joined on `id` — the result is
`[{id:1,v:'a'},{id:2,v:null}]`. -/
theorem left_outer_join_nulls (keys rightCols : List String)
    (left right : List Row) (l : Row) (hl : l ∈ left)
    (hno : ∀ r ∈ right, matchesOn keys l r = false) :
    (l ++ rightCols.map (fun c => (c, Value.vnull)))
        ∈ leftOuterJoin keys rightCols left right ∧
    leftOuterJoin ["id"] ["v"]
        [[("id", .vint 1)], [("id", .vint 2)]]
        [[("id", .vint 1), ("v", .vstr "a")]] =
      [[("id", .vint 1), ("v", .vstr "a")], [("id", .vint 2), ("v", .vnull)]] := by
  constructor
  · have hfilter : right.filter (fun r => matchesOn keys l r) = [] := by
      rw [List.filter_eq_nil_iff]
      intro r hr
      simp [hno r hr]
    unfold leftOuterJoin
    rw [List.mem_flatMap]
    refine ⟨l, hl, ?_⟩
    rw [hfilter]
    exact List.mem_singleton.mpr rfl
  · decide

/-- Witness for C8: the spec's unmatched left row `{id:2}`. -/
theorem left_outer_join_nulls_witness :
    ([("id", Value.vint 2)] ++ ["v"].map (fun c => (c, Value.vnull)))
        ∈ leftOuterJoin ["id"] ["v"]
          [[("id", .vint 1)], [("id", .vint 2)]]
          [[("id", .vint 1), ("v", .vstr "a")]] :=
  (left_outer_join_nulls ["id"] ["v"]
      [[("id", .vint 1)], [("id", .vint 2)]]
      [[("id", .vint 1), ("v", .vstr "a")]]
      [("id", .vint 2)] (by decide) (by decide)).1

end QueryInterpreter

namespace Dmmf

/-- C9: `getDMMF` is exactly the composition of its two stages — the raw
DMMF from the internal `getRawDMMF` passed through
`externalToInternalDmmf` — and `getPrismaClientDMMF` is exactly
`externalToInternalDmmf`. -/
theorem getDMMF_is_composition {Options RawDoc ClientDoc Err : Type}
    (getRawDMMF : Options → Except Err RawDoc)
    (externalToInternalDmmf : RawDoc → ClientDoc) (options : Options) :
    getDMMF getRawDMMF externalToInternalDmmf options
        = getDMMFComposed getRawDMMF externalToInternalDmmf options ∧
    getPrismaClientDMMF externalToInternalDmmf = externalToInternalDmmf := by
  refine ⟨?_, rfl⟩
  unfold getDMMF getDMMFComposed
  cases getRawDMMF options <;> rfl

end Dmmf

namespace Generators

/-- C10: `extractPreviewFeatures` returns the `previewFeatures` of the
first generator whose provider env-parses to `prisma-client-js`
(the empty list when that field is absent), and the empty list when no
generator's provider parses to `prisma-client-js`. -/
theorem extractPreviewFeatures_first {EnvValue : Type}
    (parseEnvValue : EnvValue → String)
    (pre post : List (GeneratorConfig EnvValue)) (g : GeneratorConfig EnvValue)
    (hpre : ∀ g' ∈ pre, parseEnvValue g'.provider ≠ "prisma-client-js")
    (hg : parseEnvValue g.provider = "prisma-client-js") :
    extractPreviewFeatures parseEnvValue (pre ++ g :: post)
        = g.previewFeatures.getD [] ∧
    ∀ gens : List (GeneratorConfig EnvValue),
      (∀ g' ∈ gens, parseEnvValue g'.provider ≠ "prisma-client-js") →
      extractPreviewFeatures parseEnvValue gens = [] := by
  constructor
  · have hfind : (pre ++ g :: post).find?
        (fun g' => parseEnvValue g'.provider == "prisma-client-js") = some g := by
      induction pre with
      | nil =>
        simp only [List.nil_append]
        exact List.find?_cons_of_pos _ (by simp [hg])
      | cons p ps ih =>
        have hp : (parseEnvValue p.provider == "prisma-client-js") = false := by
          simpa using hpre p (List.mem_cons_self p ps)
        rw [List.cons_append, List.find?_cons_of_neg _ (by simp_all)]
        exact ih (fun g' hg' => hpre g' (List.mem_cons_of_mem p hg'))
    simp [extractPreviewFeatures, hfind]
  · intro gens hnone
    have hfind : gens.find?
        (fun g' => parseEnvValue g'.provider == "prisma-client-js") = none := by
      rw [List.find?_eq_none]
      intro g' hg'
      simpa using hnone g' hg'
    simp [extractPreviewFeatures, hfind]

/-- Witness for C10: the second generator is the `prisma-client-js` one. -/
theorem extractPreviewFeatures_first_witness :
    extractPreviewFeatures (fun s => s)
        ([⟨"prisma-client-go", some ["y"]⟩]
          ++ (⟨"prisma-client-js", some ["x"]⟩ : GeneratorConfig String) :: [])
      = (some ["x"] : Option (List String)).getD [] :=
  (extractPreviewFeatures_first (fun s => s)
      [⟨"prisma-client-go", some ["y"]⟩] []
      ⟨"prisma-client-js", some ["x"]⟩
      (by intro g' hg'
          simp only [List.mem_singleton] at hg'
          subst hg'
          decide)
      rfl).1

end Generators

end Prisma
